import Mathlib

/-!
Shallow embedding of the expense-tracker ledger and settlement engine
(`src/main.py`).

Money amounts are modelled as exact rationals.  Python dicts (which
preserve insertion order) are modelled as association lists ordered by
insertion, with lookup, update and deletion acting on the first
occurrence of a key.  A raised Python exception is modelled with
`Except`: each mutating operation returns, beside the normal result or
the raised error, the state it leaves behind, so that partial mutation
before a raise is observable.
-/

namespace ExpenseTracker

/-- A raised Python exception of the engine. -/
inductive PyErr where
  | valueError
  | zeroDivisionError
deriving DecidableEq

deriving instance DecidableEq for Except

/-- First-occurrence lookup in an insertion-ordered association list
(the model of reading a Python `dict`). -/
def dictLookup {α : Type} (m : List (String × α)) (k : String) : Option α :=
  (m.find? (fun p => p.1 == k)).map Prod.snd

/-- Python `k in d`. -/
def dictContains {α : Type} (m : List (String × α)) (k : String) : Bool :=
  (m.find? (fun p => p.1 == k)).isSome

/-- Lookup with a default value. -/
def dictGetD {α : Type} (m : List (String × α)) (k : String) (d : α) : α :=
  (dictLookup m k).getD d

/-- Python `d[k] = v` for a key already present: replaces the value at
the first occurrence of `k`, keeping insertion order. -/
def dictUpdate {α : Type} : List (String × α) → String → α → List (String × α)
  | [], _, _ => []
  | (k', v') :: rest, k, v =>
    if k' == k then (k', v) :: rest else (k', v') :: dictUpdate rest k v

/-- Python `del d[k]`: removes the first occurrence of `k`. -/
def dictErase {α : Type} : List (String × α) → String → List (String × α)
  | [], _ => []
  | (k', v') :: rest, k =>
    if k' == k then rest else (k', v') :: dictErase rest k

/-- The key list of a dict, in insertion order. -/
def dictKeys {α : Type} (m : List (String × α)) : List String := m.map Prod.fst

/-- The `User` dataclass, minus the creation timestamp (never read by the
engine). -/
structure User where
  id : String
  name : String
  email : String
deriving DecidableEq

/-- The `SplitType` enum. -/
inductive SplitType where
  | equal
  | exact
  | percentage
deriving DecidableEq

/-- The `Split` dataclass.  Its `__post_init__` clamps an out-of-range
percentage to `0` and raises on a negative amount; both behaviours are
embedded at every construction site. -/
structure Split where
  user_id : String
  amount : ℚ
  percentage : ℚ
deriving DecidableEq

/-- The `Expense` dataclass, minus the creation timestamp. -/
structure Expense where
  id : String
  description : String
  amount : ℚ
  paid_by : String
  group_id : Option String
  split_type : SplitType
  splits : List Split
  category : String
deriving DecidableEq

/-- The `Group` dataclass, minus the creation timestamp. -/
structure Group where
  id : String
  name : String
  description : String
  members : List String
  created_by : String
deriving DecidableEq

/-- The `ExpenseSplitter` state: three id-keyed dicts. -/
structure ExpenseSplitter where
  users : List (String × User)
  groups : List (String × Group)
  expenses : List (String × Expense)
deriving DecidableEq

/-- Store the expense object back after an in-place mutation. -/
def setExpense (s : ExpenseSplitter) (expense_id : String) (e : Expense) : ExpenseSplitter :=
  { s with expenses := dictUpdate s.expenses expense_id e }

/-- `ExpenseSplitter.split_expense_equally`.  The division
`expense.amount / len(user_ids)` raises `ZeroDivisionError` on an empty
participant list; the mutation of `split_type` (line 162) precedes the
list comprehension building the splits (line 163), whose `Split`
constructor raises on a negative amount. -/
def split_expense_equally (s : ExpenseSplitter) (expense_id : String)
    (user_ids : List String) : Except PyErr Bool × ExpenseSplitter :=
  match dictLookup s.expenses expense_id with
  | none => (.ok false, s)
  | some expense =>
    if ¬ (user_ids.all (fun uid => dictContains s.users uid)) then (.ok false, s)
    else if user_ids.length = 0 then (.error .zeroDivisionError, s)
    else
      let split_amount := expense.amount / (user_ids.length : ℚ)
      let s1 := setExpense s expense_id { expense with split_type := .equal }
      if split_amount < 0 then (.error .valueError, s1)
      else (.ok true, setExpense s1 expense_id
        { expense with
          split_type := .equal
          splits := user_ids.map (fun uid => ⟨uid, split_amount, 0⟩) })

/-- `ExpenseSplitter.split_expense_exact`.  The sum check raises before
any mutation; the split list comprehension (after `split_type` was
already mutated) raises at a negative amount before `expense.splits`
is assigned. -/
def split_expense_exact (s : ExpenseSplitter) (expense_id : String)
    (splits : List (String × ℚ)) : Except PyErr Bool × ExpenseSplitter :=
  match dictLookup s.expenses expense_id with
  | none => (.ok false, s)
  | some expense =>
    if ¬ (splits.all (fun p => dictContains s.users p.1)) then (.ok false, s)
    else
      let total_splits := (splits.map Prod.snd).sum
      if 1/100 < |total_splits - expense.amount| then (.error .valueError, s)
      else
        let s1 := setExpense s expense_id { expense with split_type := .exact }
        if splits.any (fun p => p.2 < 0) then (.error .valueError, s1)
        else (.ok true, setExpense s1 expense_id
          { expense with
            split_type := .exact
            splits := splits.map (fun p => ⟨p.1, p.2, 0⟩) })

/-- The append loop of `split_expense_percentage`: builds `Split` records
one at a time, stopping with an error at the first negative amount (the
`Split` constructor raises there); the records built before the raise
have already been appended to `expense.splits`. -/
def buildPercentageSplits (amount : ℚ) : List (String × ℚ) → List Split × Bool
  | [] => ([], false)
  | (uid, percentage) :: rest =>
    let a := percentage / 100 * amount
    if a < 0 then ([], true)
    else
      let r := buildPercentageSplits amount rest
      (⟨uid, a, if 0 ≤ percentage ∧ percentage ≤ 100 then percentage else 0⟩ :: r.1, r.2)

/-- `ExpenseSplitter.split_expense_percentage`. -/
def split_expense_percentage (s : ExpenseSplitter) (expense_id : String)
    (percentages : List (String × ℚ)) : Except PyErr Bool × ExpenseSplitter :=
  match dictLookup s.expenses expense_id with
  | none => (.ok false, s)
  | some expense =>
    if ¬ (percentages.all (fun p => dictContains s.users p.1)) then (.ok false, s)
    else
      let total_percentage := (percentages.map Prod.snd).sum
      if 1/100 < |total_percentage - 100| then (.error .valueError, s)
      else
        let r := buildPercentageSplits expense.amount percentages
        let s1 := setExpense s expense_id
          { expense with split_type := .percentage, splits := r.1 }
        if r.2 then (.error .valueError, s1) else (.ok true, s1)

/-- `if group_id and expense.group_id != group_id: continue` — an expense
is included when no truthy group scope is given or its group matches. -/
def includeExpense (group_id : Option String) (e : Expense) : Bool :=
  match group_id with
  | none => true
  | some g => if g = "" then true else e.group_id == some g

/-- The `user_owes` accumulation: amount of the first split of the target
user, `0.0` when absent. -/
def firstSplitAmount (splits : List Split) (user_id : String) : ℚ :=
  match splits.find? (fun sp => sp.user_id == user_id) with
  | some sp => sp.amount
  | none => 0

/-- `if k not in balances: balances[k] = 0.0` followed by
`balances[k] += v`: add to the entry, inserting at the end when absent. -/
def dictAddTo (m : List (String × ℚ)) (k : String) (v : ℚ) : List (String × ℚ) :=
  if dictContains m k then dictUpdate m k (dictGetD m k 0 + v) else m ++ [(k, v)]

/-- Payer branch of `calculate_user_balance`: every other participant
owes the payer their split amount. -/
def addOthers (user_id : String) (splits : List Split)
    (bal : List (String × ℚ)) : List (String × ℚ) :=
  splits.foldl
    (fun b sp => if sp.user_id == user_id then b else dictAddTo b sp.user_id sp.amount) bal

/-- One iteration of the expense loop of `calculate_user_balance`. -/
def applyExpense (user_id : String) (group_id : Option String)
    (bal : List (String × ℚ)) (e : Expense) : List (String × ℚ) :=
  if ¬ includeExpense group_id e then bal
  else if e.splits.isEmpty then bal
  else if e.paid_by == user_id then addOthers user_id e.splits bal
  else
    let user_owes := firstSplitAmount e.splits user_id
    if 0 < user_owes then dictAddTo bal e.paid_by (-user_owes) else bal

/-- `ExpenseSplitter.calculate_user_balance`. -/
def calculate_user_balance (s : ExpenseSplitter) (user_id : String)
    (group_id : Option String) : List (String × ℚ) :=
  if ¬ dictContains s.users user_id then []
  else (s.expenses.map Prod.snd).foldl (applyExpense user_id group_id) []

/-- `ExpenseSplitter.get_group_balances`. -/
def get_group_balances (s : ExpenseSplitter) (group_id : String) :
    List (String × List (String × ℚ)) :=
  match dictLookup s.groups group_id with
  | none => []
  | some g => g.members.map (fun m => (m, calculate_user_balance s m (some group_id)))

/-- A settlement instruction `{'from': ..., 'to': ..., 'amount': ...}`. -/
structure Transaction where
  tfrom : String
  tto : String
  amount : ℚ
deriving DecidableEq

/-- Python `round(x, 2)` modelled as round-to-nearest cent. -/
def round2 (q : ℚ) : ℚ := ((round (q * 100) : ℤ) : ℚ) / 100

/-- The net-balance pass of `simplify_debts`. -/
def netBalancesOf (balances : List (String × List (String × ℚ))) : List (String × ℚ) :=
  balances.map (fun p => (p.1, (p.2.map Prod.snd).sum))

/-- Users with net balance above the tolerance. -/
def creditorsOf (net : List (String × ℚ)) : List (String × ℚ) :=
  net.filter (fun p => 1/100 < p.2)

/-- Users with net balance below minus the tolerance, tracked positively. -/
def debtorsOf (net : List (String × ℚ)) : List (String × ℚ) :=
  (net.filter (fun p => p.2 < -(1/100))).map (fun p => (p.1, -p.2))

/-- The inner `for creditor_id, credit_amount in list(creditors.items())`
loop of `simplify_debts`: the first list is the snapshot taken at loop
entry, the last the live creditor dict the loop mutates.  Returns the
recorded transactions, the remaining debt and the live dict at exit. -/
def settleOne (debtor_id : String) : List (String × ℚ) → ℚ → List (String × ℚ) →
    List Transaction × ℚ × List (String × ℚ)
  | [], remaining_debt, creditors => ([], remaining_debt, creditors)
  | (creditor_id, credit_amount) :: snap, remaining_debt, creditors =>
    if remaining_debt ≤ 1/100 then ([], remaining_debt, creditors)
    else
      let payment := min remaining_debt credit_amount
      let creditors1 :=
        dictUpdate creditors creditor_id (dictGetD creditors creditor_id 0 - payment)
      let creditors2 :=
        if dictGetD creditors1 creditor_id 0 ≤ 1/100
        then dictErase creditors1 creditor_id else creditors1
      let r := settleOne debtor_id snap (remaining_debt - payment) creditors2
      (⟨debtor_id, creditor_id, round2 payment⟩ :: r.1, r.2)

/-- The outer `for debtor_id, debt_amount in debtors.items()` loop of
`simplify_debts`; also returns the final creditor dict. -/
def settleAll : List (String × ℚ) → List (String × ℚ) →
    List Transaction × List (String × ℚ)
  | [], creditors => ([], creditors)
  | (debtor_id, debt_amount) :: debtors, creditors =>
    let r := settleOne debtor_id creditors debt_amount creditors
    let r2 := settleAll debtors r.2.2
    (r.1 ++ r2.1, r2.2)

/-- `simplify_debts` together with the final creditor dict. -/
def settleRun (balances : List (String × List (String × ℚ))) :
    List Transaction × List (String × ℚ) :=
  settleAll (debtorsOf (netBalancesOf balances)) (creditorsOf (netBalancesOf balances))

/-- `ExpenseSplitter.simplify_debts`. -/
def simplify_debts (balances : List (String × List (String × ℚ))) : List Transaction :=
  (settleRun balances).1

/-- Net balance of one user: the sum of all counterparty amounts in
their balance map. -/
def netOf (bal : List (String × ℚ)) : ℚ := (bal.map Prod.snd).sum

/-- Total amount of the transactions whose `from` field is `d`. -/
def paidBy (d : String) (ts : List Transaction) : ℚ :=
  ((ts.filter (fun t => t.tfrom == d)).map Transaction.amount).sum

/-- Number of transactions whose `from` field is `d`. -/
def countBy (d : String) (ts : List Transaction) : ℕ :=
  (ts.filter (fun t => t.tfrom == d)).length

/-- Total amount of the transactions whose `to` field is `c`. -/
def paidTo (c : String) (ts : List Transaction) : ℚ :=
  ((ts.filter (fun t => t.tto == c)).map Transaction.amount).sum

/-- Number of transactions whose `to` field is `c`. -/
def countTo (c : String) (ts : List Transaction) : ℕ :=
  (ts.filter (fun t => t.tto == c)).length

/-- Sum of the split amounts of the participants other than `user_id`. -/
def othersSum (user_id : String) (splits : List Split) : ℚ :=
  ((splits.filter (fun sp => !(sp.user_id == user_id))).map Split.amount).sum

/-- Contribution of a single expense to the net balance of `user_id`. -/
def eNet (user_id : String) (group_id : Option String) (e : Expense) : ℚ :=
  if ¬ includeExpense group_id e then 0
  else if e.splits.isEmpty then 0
  else if e.paid_by == user_id then othersSum user_id e.splits
  else if 0 < firstSplitAmount e.splits user_id then -(firstSplitAmount e.splits user_id)
  else 0

/-- Amount a single expense adds to the entry of counterparty `x` in the
balance map of `user_id`. -/
def owedFromTo (user_id x : String) (splits : List Split) : ℚ :=
  ((splits.filter (fun sp => (!(sp.user_id == user_id)) && (sp.user_id == x))).map
    Split.amount).sum

/-- Contribution of a single expense to the entry of counterparty `x` in
the balance map of `user_id`. -/
def eDelta (user_id : String) (group_id : Option String) (e : Expense) (x : String) : ℚ :=
  if ¬ includeExpense group_id e then 0
  else if e.splits.isEmpty then 0
  else if e.paid_by == user_id then owedFromTo user_id x e.splits
  else if 0 < firstSplitAmount e.splits user_id then
    (if e.paid_by = x then -(firstSplitAmount e.splits user_id) else 0)
  else 0

/-- The three users of the worked example. -/
def userA : User := ⟨"A", "Alice", "alice@example.com"⟩

def userB : User := ⟨"B", "Bob", "bob@example.com"⟩

def userC : User := ⟨"C", "Charlie", "charlie@example.com"⟩

/-- The three-user scenario of the spec, before any splitting. -/
def roommatesState0 : ExpenseSplitter :=
  ⟨[("A", userA), ("B", userB), ("C", userC)],
   [("G", ⟨"G", "Roommates", "Shared apartment expenses", ["A", "B", "C"], "A"⟩)],
   [("E1", ⟨"E1", "Groceries", 120, "A", some "G", .equal, [], "Food"⟩),
    ("E2", ⟨"E2", "Electricity Bill", 90, "B", some "G", .equal, [], "Utilities"⟩),
    ("E3", ⟨"E3", "Internet", 60, "C", some "G", .equal, [], "Utilities"⟩)]⟩

/-- The worked example after the three equal splits. -/
def roommatesState : ExpenseSplitter :=
  (split_expense_equally
    ((split_expense_equally
      ((split_expense_equally roommatesState0 "E1" ["A", "B", "C"]).2)
      "E2" ["A", "B", "C"]).2)
    "E3" ["A", "B", "C"]).2

/-- A group whose only scoped expense was paid by a non-member: its
splits reference only members, yet the member net balances do not
cancel. -/
def strayPayerState : ExpenseSplitter :=
  ⟨[("A", ⟨"A", "Alice", ""⟩), ("X", ⟨"X", "Xavier", ""⟩)],
   [("G", ⟨"G", "Trip", "", ["A"], "A"⟩)],
   [("E1", ⟨"E1", "Taxi", 10, "X", some "G", .equal, [⟨"A", 10, 0⟩], "General"⟩)]⟩

/-- Two users and one unsplit expense. -/
def twoUserState : ExpenseSplitter :=
  ⟨[("A", ⟨"A", "Alice", ""⟩), ("B", ⟨"B", "Bob", ""⟩)], [],
   [("E", ⟨"E", "Dinner", 100, "A", none, .equal, [], "General"⟩)]⟩

/-- Like `twoUserState` but the expense already carries an equal split. -/
def twoUserSplitState : ExpenseSplitter :=
  ⟨[("A", ⟨"A", "Alice", ""⟩), ("B", ⟨"B", "Bob", ""⟩)], [],
   [("E", ⟨"E", "Dinner", 100, "A", none, .equal,
     [⟨"A", 50, 0⟩, ⟨"B", 50, 0⟩], "General"⟩)]⟩

/-- A balance map with a debtor and no creditor. -/
def lopsidedBalances : List (String × List (String × ℚ)) := [("A", [("B", -100)])]

/-- A balance map whose creditor holds more credit than the total debt. -/
def surplusBalances : List (String × List (String × ℚ)) :=
  [("A", [("B", 100)]), ("B", [("A", -60)])]

/-- A balance map whose creditor holds less credit than the total debt. -/
def shortfallBalances : List (String × List (String × ℚ)) :=
  [("A", [("B", 50)]), ("B", [("A", -60)])]

/-! ## Helper lemmas -/

theorem settleOne_break (d : String) (snap : List (String × ℚ)) (debt : ℚ)
    (creds : List (String × ℚ)) (h : debt ≤ 1/100) :
    settleOne d snap debt creds = ([], debt, creds) := by
  cases snap with
  | nil => rfl
  | cons hd tl =>
    obtain ⟨c, a⟩ := hd
    simp only [settleOne]
    rw [if_pos h]

theorem settleAll_nil_creditors (ds : List (String × ℚ)) :
    settleAll ds [] = ([], []) := by
  induction ds with
  | nil => rfl
  | cons hd tl ih => obtain ⟨d, amt⟩ := hd; simp [settleAll, settleOne, ih]

theorem simplify_of_creditors_nil (balances : List (String × List (String × ℚ)))
    (h : creditorsOf (netBalancesOf balances) = []) : simplify_debts balances = [] := by
  simp [simplify_debts, settleRun, h, settleAll_nil_creditors]

theorem simplify_of_debtors_nil (balances : List (String × List (String × ℚ)))
    (h : debtorsOf (netBalancesOf balances) = []) : simplify_debts balances = [] := by
  simp [simplify_debts, settleRun, h, settleAll]

theorem dictUpdate_cons_self {α : Type} (c : String) (a v : α) (tl : List (String × α)) :
    dictUpdate ((c, a) :: tl) c v = (c, v) :: tl := by
  simp [dictUpdate]

theorem dictGetD_cons_self {α : Type} (c : String) (a dflt : α) (tl : List (String × α)) :
    dictGetD ((c, a) :: tl) c dflt = a := by
  simp [dictGetD, dictLookup, List.find?_cons]

theorem dictErase_cons_self {α : Type} (c : String) (a : α) (tl : List (String × α)) :
    dictErase ((c, a) :: tl) c = tl := by
  simp [dictErase]

theorem list_sum_map_add {α : Type} (l : List α) (f g : α → ℚ) :
    (l.map (fun x => f x + g x)).sum = (l.map f).sum + (l.map g).sum := by
  induction l with
  | nil => simp
  | cons hd tl ih => simp [ih]; ring

theorem list_sum_map_neg {α : Type} (l : List α) (f : α → ℚ) :
    (l.map (fun x => -(f x))).sum = -((l.map f).sum) := by
  induction l with
  | nil => simp
  | cons hd tl ih => simp [ih]; ring

theorem list_sum_comm {α β : Type} (l1 : List α) (l2 : List β) (f : α → β → ℚ) :
    (l1.map (fun a => (l2.map (f a)).sum)).sum =
      (l2.map (fun b => (l1.map (fun a => f a b)).sum)).sum := by
  induction l1 with
  | nil => simp
  | cons hd tl ih =>
    simp only [List.map_cons, List.sum_cons, ih]
    rw [← list_sum_map_add]

theorem list_sum_map_ite (l : List String) (a : String) (c : ℚ)
    (hnd : l.Nodup) (ha : a ∈ l) :
    (l.map (fun u => if a = u then c else 0)).sum = c := by
  induction l with
  | nil => cases ha
  | cons hd tl ih =>
    rcases List.mem_cons.1 ha with heq | htl
    · subst heq
      have hnotin : a ∉ tl := (List.nodup_cons.1 hnd).1
      have hz : (tl.map (fun u => if a = u then c else 0)).sum = 0 := by
        apply List.sum_eq_zero
        intro x hx
        obtain ⟨u, hu, rfl⟩ := List.mem_map.1 hx
        rw [if_neg]
        intro h
        exact hnotin (h ▸ hu)
      simp [hz]
    · have hne : hd ≠ a := by
        intro h
        exact (List.nodup_cons.1 hnd).1 (h ▸ htl)
      have hane : a ≠ hd := fun h => hne h.symm
      have := ih (List.nodup_cons.1 hnd).2 htl
      simp only [List.map_cons, List.sum_cons, this, if_neg hane]
      ring

theorem netOf_nil : netOf [] = 0 := rfl

theorem netOf_cons (k : String) (v : ℚ) (m : List (String × ℚ)) :
    netOf ((k, v) :: m) = v + netOf m := by
  simp [netOf]

theorem netOf_dictAddTo : ∀ (m : List (String × ℚ)) (k : String) (v : ℚ),
    netOf (dictAddTo m k v) = netOf m + v := by
  intro m
  induction m with
  | nil =>
    intro k v
    simp [dictAddTo, dictContains, dictLookup, netOf]
  | cons hd rest ih =>
    intro k v
    obtain ⟨k', v'⟩ := hd
    by_cases hk : (k' == k) = true
    · have hc : dictContains ((k', v') :: rest) k = true := by
        simp [dictContains, List.find?_cons, hk]
      have hg : dictGetD ((k', v') :: rest) k 0 = v' := by
        simp [dictGetD, dictLookup, List.find?_cons, hk]
      rw [dictAddTo, if_pos hc, hg, dictUpdate, if_pos hk, netOf_cons, netOf_cons]
      ring
    · have hcc : dictContains ((k', v') :: rest) k = dictContains rest k := by
        simp [dictContains, dictLookup, List.find?_cons, hk]
      have hgg : dictGetD ((k', v') :: rest) k 0 = dictGetD rest k 0 := by
        simp [dictGetD, dictLookup, List.find?_cons, hk]
      by_cases hc : dictContains rest k = true
      · have hat : dictAddTo rest k v = dictUpdate rest k (dictGetD rest k 0 + v) := by
          rw [dictAddTo, if_pos hc]
        rw [dictAddTo, hcc, if_pos hc, hgg, dictUpdate, if_neg hk, netOf_cons, ← hat,
          ih k v, netOf_cons]
        ring
      · have hat : dictAddTo rest k v = rest ++ [(k, v)] := by
          rw [dictAddTo, if_neg (by simp [hc])]
        rw [dictAddTo, hcc, if_neg (by simp [hc]), List.cons_append, netOf_cons, ← hat,
          ih k v, netOf_cons]
        ring

theorem netOf_addOthers (user_id : String) : ∀ (splits : List Split)
    (bal : List (String × ℚ)),
    netOf (addOthers user_id splits bal) = netOf bal + othersSum user_id splits := by
  intro splits
  induction splits with
  | nil => intro bal; simp [addOthers, othersSum]
  | cons sp rest ih =>
    intro bal
    by_cases hsp : (sp.user_id == user_id) = true
    · have heq : sp.user_id = user_id := by simpa [beq_iff_eq] using hsp
      have h1 : addOthers user_id (sp :: rest) bal = addOthers user_id rest bal := by
        simp [addOthers, heq]
      have h2 : othersSum user_id (sp :: rest) = othersSum user_id rest := by
        simp [othersSum, List.filter_cons, hsp]
      rw [h1, h2, ih]
    · have hne : sp.user_id ≠ user_id := by simpa [beq_iff_eq] using hsp
      have h1 : addOthers user_id (sp :: rest) bal =
          addOthers user_id rest (dictAddTo bal sp.user_id sp.amount) := by
        simp [addOthers, hne]
      have h2 : othersSum user_id (sp :: rest) = sp.amount + othersSum user_id rest := by
        simp [othersSum, List.filter_cons, hsp]
      rw [h1, h2, ih, netOf_dictAddTo]
      ring

theorem netOf_applyExpense (user_id : String) (group_id : Option String)
    (bal : List (String × ℚ)) (e : Expense) :
    netOf (applyExpense user_id group_id bal e) = netOf bal + eNet user_id group_id e := by
  simp only [applyExpense, eNet]
  split_ifs <;> simp [netOf_addOthers, netOf_dictAddTo]

theorem netOf_foldl (user_id : String) (group_id : Option String) :
    ∀ (es : List Expense) (bal : List (String × ℚ)),
    netOf (es.foldl (applyExpense user_id group_id) bal) =
      netOf bal + (es.map (eNet user_id group_id)).sum := by
  intro es
  induction es with
  | nil => intro bal; simp
  | cons e rest ih =>
    intro bal
    simp only [List.foldl_cons, List.map_cons, List.sum_cons, ih, netOf_applyExpense]
    ring

theorem netOf_calculate (s : ExpenseSplitter) (user_id : String)
    (group_id : Option String) (h : dictContains s.users user_id = true) :
    netOf (calculate_user_balance s user_id group_id) =
      ((s.expenses.map Prod.snd).map (eNet user_id group_id)).sum := by
  rw [calculate_user_balance, if_neg (by simp [h]), netOf_foldl, netOf_nil, zero_add]

theorem firstSplitAmount_nil (u : String) : firstSplitAmount [] u = 0 := rfl

theorem firstSplitAmount_cons (sp : Split) (rest : List Split) (u : String) :
    firstSplitAmount (sp :: rest) u =
      if (sp.user_id == u) = true then sp.amount else firstSplitAmount rest u := by
  by_cases h : (sp.user_id == u) = true <;>
    simp [firstSplitAmount, List.find?_cons, h]

theorem firstSplitAmount_eq_zero_of_not_mem (splits : List Split) (u : String)
    (h : u ∉ splits.map Split.user_id) : firstSplitAmount splits u = 0 := by
  induction splits with
  | nil => rfl
  | cons sp rest ih =>
    rw [firstSplitAmount_cons]
    rw [List.map_cons] at h
    have hne : (sp.user_id == u) ≠ true := by
      simp only [ne_eq, beq_iff_eq]
      intro heq
      exact h (heq ▸ List.mem_cons_self _ _)
    rw [if_neg hne]
    exact ih (fun hm => h (List.mem_cons_of_mem _ hm))

theorem firstSplitAmount_nonneg (splits : List Split) (u : String)
    (h : ∀ sp ∈ splits, 0 ≤ sp.amount) : 0 ≤ firstSplitAmount splits u := by
  rw [firstSplitAmount]
  cases hf : splits.find? (fun sp => sp.user_id == u) with
  | none => exact le_refl 0
  | some sp => exact h sp (List.mem_of_find?_eq_some hf)

theorem firstSplitAmount_filter_ne (p u : String) (hne : u ≠ p) : ∀ (splits : List Split),
    firstSplitAmount (splits.filter (fun sp => !(sp.user_id == p))) u =
      firstSplitAmount splits u := by
  intro splits
  induction splits with
  | nil => rfl
  | cons sp rest ih =>
    rw [List.filter_cons]
    by_cases hp : sp.user_id = p
    · have hsu : (sp.user_id == u) ≠ true := by
        simp only [ne_eq, beq_iff_eq]
        intro h
        exact hne (h ▸ hp)
      rw [if_neg (by simp [hp]), ih, firstSplitAmount_cons, if_neg hsu]
    · rw [if_pos (by simp [hp]), firstSplitAmount_cons, firstSplitAmount_cons]
      by_cases hs : (sp.user_id == u) = true
      · rw [if_pos hs, if_pos hs]
      · rw [if_neg hs, if_neg hs, ih]

theorem sum_firstSplitAmount : ∀ (splits : List Split) (members : List String),
    members.Nodup → (splits.map Split.user_id).Nodup →
    (∀ sp ∈ splits, sp.user_id ∈ members) →
    (members.map (firstSplitAmount splits)).sum = (splits.map Split.amount).sum := by
  intro splits
  induction splits with
  | nil =>
    intro members _ _ _
    simp only [List.map_nil, List.sum_nil]
    apply List.sum_eq_zero
    intro x hx
    obtain ⟨u, _, rfl⟩ := List.mem_map.1 hx
    rfl
  | cons sp rest ih =>
    intro members hndm hnds hsub
    have hrest0 : firstSplitAmount rest sp.user_id = 0 :=
      firstSplitAmount_eq_zero_of_not_mem rest sp.user_id
        (List.nodup_cons.1 (by simpa using hnds)).1
    have hfun : ∀ u, firstSplitAmount (sp :: rest) u =
        firstSplitAmount rest u + (if sp.user_id = u then sp.amount else 0) := by
      intro u
      rw [firstSplitAmount_cons]
      by_cases h : (sp.user_id == u) = true
      · have heq : sp.user_id = u := by simpa [beq_iff_eq] using h
        rw [if_pos h, if_pos heq, ← heq, hrest0, zero_add]
      · have hne : sp.user_id ≠ u := by simpa [beq_iff_eq] using h
        rw [if_neg h, if_neg hne, add_zero]
    calc (members.map (firstSplitAmount (sp :: rest))).sum
        = (members.map (fun u => firstSplitAmount rest u +
            (if sp.user_id = u then sp.amount else 0))).sum := by
          congr 1
          exact List.map_congr_left (fun u _ => hfun u)
      _ = (members.map (firstSplitAmount rest)).sum +
            (members.map (fun u => if sp.user_id = u then sp.amount else 0)).sum :=
          list_sum_map_add members _ _
      _ = (rest.map Split.amount).sum + sp.amount := by
          rw [ih members hndm (List.nodup_cons.1 (by simpa using hnds)).2
            (fun q hq => hsub q (List.mem_cons_of_mem _ hq)),
            list_sum_map_ite members sp.user_id sp.amount hndm
              (hsub sp (List.mem_cons_self _ _))]
      _ = ((sp :: rest).map Split.amount).sum := by
          simp [List.map_cons, List.sum_cons]
          ring

theorem eNet_members_sum (e : Expense) (group_id : Option String) (members : List String)
    (hndm : members.Nodup)
    (hcond : includeExpense group_id e = true → e.splits ≠ [] →
      ((e.splits.map Split.user_id).Nodup ∧
        (∀ sp ∈ e.splits, sp.user_id ∈ members ∧ 0 ≤ sp.amount) ∧
        e.paid_by ∈ members)) :
    (members.map (fun u => eNet u group_id e)).sum = 0 := by
  by_cases hinc : includeExpense group_id e = true
  · by_cases hemp : e.splits.isEmpty = true
    · apply List.sum_eq_zero
      intro x hx
      obtain ⟨u, _, rfl⟩ := List.mem_map.1 hx
      simp [eNet, hinc, hemp]
    · obtain ⟨hnds, hsub, hpay⟩ := hcond hinc (by simpa [List.isEmpty_iff] using hemp)
      have hperm : members.Perm (e.paid_by :: members.erase e.paid_by) :=
        List.perm_cons_erase hpay
      rw [List.Perm.sum_eq (hperm.map _)]
      simp only [List.map_cons, List.sum_cons]
      have hpnet : eNet e.paid_by group_id e = othersSum e.paid_by e.splits := by
        simp [eNet, hinc, hemp]
      have hune : ∀ u ∈ members.erase e.paid_by,
          eNet u group_id e = -(firstSplitAmount e.splits u) := by
        intro u hu
        have hup : u ≠ e.paid_by := ((List.Nodup.mem_erase_iff hndm).1 hu).1
        have hbe : (e.paid_by == u) ≠ true := by
          simp only [ne_eq, beq_iff_eq]
          exact fun h => hup h.symm
        have hnn : 0 ≤ firstSplitAmount e.splits u :=
          firstSplitAmount_nonneg _ _ (fun sp hsp => (hsub sp hsp).2)
        by_cases howes : 0 < firstSplitAmount e.splits u
        · simp [eNet, hinc, hemp, hbe, howes]
        · have h0 : firstSplitAmount e.splits u = 0 := le_antisymm (not_lt.1 howes) hnn
          simp [eNet, hinc, hemp, hbe, howes, h0]
      have hsum2 : ((members.erase e.paid_by).map (fun u => eNet u group_id e)).sum =
          -(othersSum e.paid_by e.splits) := by
        rw [List.map_congr_left hune]
        have : ((members.erase e.paid_by).map
            (fun u => -(firstSplitAmount e.splits u))).sum =
            -(((members.erase e.paid_by).map (firstSplitAmount e.splits)).sum) :=
          list_sum_map_neg _ _
        rw [this]
        congr 1
        have hfirst : ∀ u ∈ members.erase e.paid_by,
            firstSplitAmount e.splits u =
              firstSplitAmount (e.splits.filter (fun sp => !(sp.user_id == e.paid_by))) u := by
          intro u hu
          exact (firstSplitAmount_filter_ne e.paid_by u
            ((List.Nodup.mem_erase_iff hndm).1 hu).1 e.splits).symm
        rw [List.map_congr_left hfirst]
        rw [sum_firstSplitAmount _ _ (hndm.erase _)
          ((hnds.sublist ((List.filter_sublist _).map Split.user_id)))
          (fun sp hsp => by
            have hmem := List.mem_of_mem_filter hsp
            have hne : sp.user_id ≠ e.paid_by := by
              have := List.of_mem_filter hsp
              simpa [beq_iff_eq] using this
            exact (List.Nodup.mem_erase_iff hndm).2 ⟨hne, (hsub sp hmem).1⟩)]
        rfl
      rw [hpnet, hsum2]
      ring
  · apply List.sum_eq_zero
    intro x hx
    obtain ⟨u, _, rfl⟩ := List.mem_map.1 hx
    simp [eNet, hinc]

theorem dictGetD_cons (k' x : String) (v' : ℚ) (rest : List (String × ℚ)) :
    dictGetD ((k', v') :: rest) x 0 =
      if (k' == x) = true then v' else dictGetD rest x 0 := by
  by_cases h : (k' == x) = true <;> simp [dictGetD, dictLookup, List.find?_cons, h]

theorem dictAddTo_cons_self (k' k : String) (v' v : ℚ) (rest : List (String × ℚ))
    (hk : (k' == k) = true) :
    dictAddTo ((k', v') :: rest) k v = (k', v' + v) :: rest := by
  have hc : dictContains ((k', v') :: rest) k = true := by
    simp [dictContains, List.find?_cons, hk]
  have hg : dictGetD ((k', v') :: rest) k 0 = v' := by
    simp [dictGetD, dictLookup, List.find?_cons, hk]
  rw [dictAddTo, if_pos hc, hg, dictUpdate, if_pos hk]

theorem dictAddTo_cons_ne (k' k : String) (v' v : ℚ) (rest : List (String × ℚ))
    (hk : (k' == k) ≠ true) :
    dictAddTo ((k', v') :: rest) k v = (k', v') :: dictAddTo rest k v := by
  have hcc : dictContains ((k', v') :: rest) k = dictContains rest k := by
    simp [dictContains, dictLookup, List.find?_cons, hk]
  have hgg : dictGetD ((k', v') :: rest) k 0 = dictGetD rest k 0 := by
    simp [dictGetD, dictLookup, List.find?_cons, hk]
  by_cases hc : dictContains rest k = true
  · rw [dictAddTo, hcc, if_pos hc, hgg, dictUpdate, if_neg hk, dictAddTo, if_pos hc]
  · rw [dictAddTo, hcc, if_neg hc, List.cons_append, dictAddTo, if_neg hc]

theorem dictGetD_dictAddTo : ∀ (m : List (String × ℚ)) (k x : String) (v : ℚ),
    dictGetD (dictAddTo m k v) x 0 = dictGetD m x 0 + (if k = x then v else 0) := by
  intro m
  induction m with
  | nil =>
    intro k x v
    have hnil : dictAddTo ([] : List (String × ℚ)) k v = [(k, v)] := by
      simp [dictAddTo, dictContains, dictLookup]
    rw [hnil, dictGetD_cons]
    by_cases hkx : k = x
    · simp [hkx, dictGetD, dictLookup]
    · have : (k == x) ≠ true := by simp [ne_eq, beq_iff_eq, hkx]
      simp [this, hkx, dictGetD, dictLookup]
  | cons hd rest ih =>
    intro k x v
    obtain ⟨k', v'⟩ := hd
    by_cases hk : (k' == k) = true
    · have hkk : k' = k := by simpa [beq_iff_eq] using hk
      rw [dictAddTo_cons_self k' k v' v rest hk, dictGetD_cons, dictGetD_cons]
      by_cases hx : (k' == x) = true
      · have hx' : k' = x := by simpa [beq_iff_eq] using hx
        rw [if_pos hx, if_pos hx, if_pos (hkk ▸ hx' : k = x)]
      · have hkx : k ≠ x := by
          intro h
          exact hx (by simp [beq_iff_eq, hkk, h])
        rw [if_neg hx, if_neg hx, if_neg hkx, add_zero]
    · rw [dictAddTo_cons_ne k' k v' v rest hk, dictGetD_cons, dictGetD_cons]
      by_cases hx : (k' == x) = true
      · have hx' : k' = x := by simpa [beq_iff_eq] using hx
        have hkx : k ≠ x := by
          intro h
          exact hk (by simp [beq_iff_eq, hx', h])
        rw [if_pos hx, if_pos hx, if_neg hkx, add_zero]
      · rw [if_neg hx, if_neg hx, ih]

theorem dictGetD_addOthers (user_id x : String) : ∀ (splits : List Split)
    (bal : List (String × ℚ)),
    dictGetD (addOthers user_id splits bal) x 0 =
      dictGetD bal x 0 + owedFromTo user_id x splits := by
  intro splits
  induction splits with
  | nil => intro bal; simp [addOthers, owedFromTo]
  | cons sp rest ih =>
    intro bal
    by_cases hsp : sp.user_id = user_id
    · have h1 : addOthers user_id (sp :: rest) bal = addOthers user_id rest bal := by
        simp [addOthers, hsp]
      have h2 : owedFromTo user_id x (sp :: rest) = owedFromTo user_id x rest := by
        simp [owedFromTo, List.filter_cons, hsp]
      rw [h1, h2, ih]
    · have h1 : addOthers user_id (sp :: rest) bal =
          addOthers user_id rest (dictAddTo bal sp.user_id sp.amount) := by
        simp [addOthers, hsp]
      have h2 : owedFromTo user_id x (sp :: rest) =
          (if sp.user_id = x then sp.amount else 0) + owedFromTo user_id x rest := by
        by_cases hx : sp.user_id = x
        · have hcnd : ((!(sp.user_id == user_id)) && (sp.user_id == x)) = true := by
            have ha : (sp.user_id == user_id) = false := by simp [hsp]
            have hb : (sp.user_id == x) = true := by simp [hx]
            rw [ha, hb]
            rfl
          rw [owedFromTo, List.filter_cons, hcnd, if_pos rfl, List.map_cons,
            List.sum_cons, if_pos hx]
          rfl
        · have hcnd : ((!(sp.user_id == user_id)) && (sp.user_id == x)) = false := by
            simp [hx]
          rw [owedFromTo, List.filter_cons, hcnd]
          simp only [Bool.false_eq_true, if_false, if_neg hx, zero_add]
          rfl
      rw [h1, ih, dictGetD_dictAddTo, h2]
      ring

theorem dictGetD_applyExpense (user_id x : String) (group_id : Option String)
    (bal : List (String × ℚ)) (e : Expense) :
    dictGetD (applyExpense user_id group_id bal e) x 0 =
      dictGetD bal x 0 + eDelta user_id group_id e x := by
  simp only [applyExpense, eDelta]
  split_ifs <;> simp [dictGetD_addOthers, dictGetD_dictAddTo, *]


theorem dictGetD_foldl (user_id x : String) (group_id : Option String) :
    ∀ (es : List Expense) (bal : List (String × ℚ)),
    dictGetD (es.foldl (applyExpense user_id group_id) bal) x 0 =
      dictGetD bal x 0 + (es.map (fun e => eDelta user_id group_id e x)).sum := by
  intro es
  induction es with
  | nil => intro bal; simp
  | cons e rest ih =>
    intro bal
    simp only [List.foldl_cons, List.map_cons, List.sum_cons, ih, dictGetD_applyExpense]
    ring

theorem dictGetD_calculate (s : ExpenseSplitter) (user_id x : String)
    (group_id : Option String) (h : dictContains s.users user_id = true) :
    dictGetD (calculate_user_balance s user_id group_id) x 0 =
      ((s.expenses.map Prod.snd).map (fun e => eDelta user_id group_id e x)).sum := by
  rw [calculate_user_balance, if_neg (by simp [h]), dictGetD_foldl]
  simp [dictGetD, dictLookup]

theorem sum_filter_uid (v : String) : ∀ (splits : List Split),
    (splits.map Split.user_id).Nodup →
    ((splits.filter (fun sp => sp.user_id == v)).map Split.amount).sum =
      firstSplitAmount splits v := by
  intro splits
  induction splits with
  | nil => intro _; rfl
  | cons sp rest ih =>
    intro hnds
    rw [List.filter_cons, firstSplitAmount_cons]
    by_cases hs : (sp.user_id == v) = true
    · have hveq : sp.user_id = v := by simpa [beq_iff_eq] using hs
      have hnotin : sp.user_id ∉ rest.map Split.user_id :=
        (List.nodup_cons.1 (by simpa using hnds)).1
      have hfil : rest.filter (fun sp => sp.user_id == v) = [] := by
        apply List.filter_eq_nil_iff.2
        intro q hq
        simp only [beq_iff_eq]
        intro hqv
        exact hnotin (hveq ▸ hqv ▸ List.mem_map_of_mem Split.user_id hq)
      rw [if_pos hs, if_pos hs, hfil]
      simp
    · rw [if_neg hs, if_neg hs, ih (List.nodup_cons.1 (by simpa using hnds)).2]

theorem owedFromTo_eq_first (u v : String) (hne : v ≠ u) (splits : List Split)
    (hnds : (splits.map Split.user_id).Nodup) :
    owedFromTo u v splits = firstSplitAmount splits v := by
  rw [owedFromTo]
  have hfil : splits.filter (fun sp => (!(sp.user_id == u)) && (sp.user_id == v)) =
      splits.filter (fun sp => sp.user_id == v) := by
    apply List.filter_congr
    intro sp _
    by_cases h : sp.user_id = v
    · simp [h, hne]
    · simp [h]
  rw [hfil, sum_filter_uid v splits hnds]

theorem eDelta_antisym (e : Expense) (group_id : Option String) (u v : String)
    (huv : u ≠ v) (hnds : (e.splits.map Split.user_id).Nodup)
    (hnn : ∀ sp ∈ e.splits, 0 ≤ sp.amount) :
    eDelta u group_id e v = -(eDelta v group_id e u) := by
  by_cases hinc : includeExpense group_id e = true
  case neg => simp [eDelta, hinc]
  by_cases hemp : e.splits.isEmpty = true
  case pos => simp [eDelta, hinc, hemp]
  have hvu : v ≠ u := Ne.symm huv
  by_cases hpu : e.paid_by = u
  · have hbv : (e.paid_by == v) ≠ true := by
      simp only [ne_eq, beq_iff_eq]
      intro h
      exact huv (hpu ▸ h)
    have hbu : (e.paid_by == u) = true := by simp [beq_iff_eq, hpu]
    have hof : owedFromTo u v e.splits = firstSplitAmount e.splits v :=
      owedFromTo_eq_first u v (fun h => huv h.symm) e.splits hnds
    have hnnv : 0 ≤ firstSplitAmount e.splits v := firstSplitAmount_nonneg _ _ hnn
    by_cases howes : 0 < firstSplitAmount e.splits v
    · simp [eDelta, hinc, hemp, hbu, hbv, howes, hof, hpu, huv, hvu]
    · have h0 : firstSplitAmount e.splits v = 0 := le_antisymm (not_lt.1 howes) hnnv
      simp [eDelta, hinc, hemp, hbu, hbv, howes, hof, h0, hpu, huv, hvu]
  by_cases hpv : e.paid_by = v
  · have hbu : (e.paid_by == u) ≠ true := by
      simp only [ne_eq, beq_iff_eq]
      intro h
      exact huv (hpv ▸ h).symm
    have hbv : (e.paid_by == v) = true := by simp [beq_iff_eq, hpv]
    have hof : owedFromTo v u e.splits = firstSplitAmount e.splits u :=
      owedFromTo_eq_first v u huv e.splits hnds
    have hnnu : 0 ≤ firstSplitAmount e.splits u := firstSplitAmount_nonneg _ _ hnn
    by_cases howes : 0 < firstSplitAmount e.splits u
    · simp [eDelta, hinc, hemp, hbu, hbv, howes, hof, hpv, huv, hvu]
    · have h0 : firstSplitAmount e.splits u = 0 := le_antisymm (not_lt.1 howes) hnnu
      simp [eDelta, hinc, hemp, hbu, hbv, howes, hof, h0, hpv, huv, hvu]
  · have hbu : (e.paid_by == u) ≠ true := by simp [ne_eq, beq_iff_eq, hpu]
    have hbv : (e.paid_by == v) ≠ true := by simp [ne_eq, beq_iff_eq, hpv]
    simp [eDelta, hinc, hemp, hbu, hbv, hpu, hpv, huv, hvu]

theorem settleOne_count (d : String) : ∀ (snap : List (String × ℚ)) (debt : ℚ),
    (settleOne d snap debt snap).1.length + (settleOne d snap debt snap).2.2.length ≤
      snap.length + 1 ∧
    ((settleOne d snap debt snap).2.2 = [] →
      (settleOne d snap debt snap).1.length ≤ snap.length) := by
  intro snap
  induction snap with
  | nil => intro debt; simp [settleOne]
  | cons hd tl ih =>
    intro debt
    obtain ⟨c, a⟩ := hd
    by_cases hbreak : debt ≤ 1/100
    · rw [settleOne_break d _ _ _ hbreak]
      simp
    · simp only [settleOne]
      rw [if_neg hbreak]
      simp only [dictUpdate_cons_self, dictGetD_cons_self]
      by_cases herase : a - min debt a ≤ 1/100
      · rw [if_pos herase, dictErase_cons_self]
        have h1 := (ih (debt - min debt a)).1
        have h2 := (ih (debt - min debt a)).2
        constructor
        · simp only [List.length_cons]
          omega
        · intro hnil
          simp only [List.length_cons]
          have := h2 hnil
          omega
      · rw [if_neg herase]
        have hda : debt ≤ a := by
          by_contra hlt
          push_neg at hlt
          rw [min_eq_right (le_of_lt hlt)] at herase
          simp at herase
        rw [min_eq_left hda, settleOne_break d tl (debt - debt) _ (by norm_num)]
        simp
        omega

theorem settleAll_count : ∀ (ds creds : List (String × ℚ)),
    (settleAll ds creds).1.length + (settleAll ds creds).2.length ≤
      ds.length + creds.length ∧
    ((settleAll ds creds).2 = [] → creds ≠ [] →
      (settleAll ds creds).1.length + 1 ≤ ds.length + creds.length) := by
  intro ds
  induction ds with
  | nil =>
    intro creds
    simp only [settleAll, List.length_nil, List.length_cons, Nat.zero_add]
    exact ⟨le_refl _, fun h h' => absurd h h'⟩
  | cons hd tl ih =>
    intro creds
    obtain ⟨d, amt⟩ := hd
    simp only [settleAll, List.length_append, List.length_cons]
    have hone := settleOne_count d creds amt
    by_cases hmid : (settleOne d creds amt creds).2.2 = []
    · rw [hmid, settleAll_nil_creditors]
      have := hone.2 hmid
      constructor
      · simp; omega
      · intro _ _
        simp
        omega
    · have h1 := (ih (settleOne d creds amt creds).2.2).1
      have h2 := (ih (settleOne d creds amt creds).2.2).2
      constructor
      · omega
      · intro hnil _
        have := h2 hnil hmid
        omega

theorem round2_abs (q : ℚ) : |round2 q - q| ≤ 1/200 := by
  have h := abs_sub_round (q * 100)
  rw [round2]
  have heq : ((round (q * 100) : ℤ) : ℚ)/100 - q =
      -((q * 100 - ((round (q * 100) : ℤ) : ℚ)) / 100) := by ring
  rw [heq, abs_neg, abs_div, abs_of_pos (by norm_num : (0:ℚ) < 100)]
  linarith

theorem round2_ge (q : ℚ) (h : 1/100 < q) : 1/100 ≤ round2 q := by
  rw [round2]
  have h1 : (1 : ℤ) ≤ round (q * 100) := by
    rw [round_eq, Int.le_floor]
    push_cast
    linarith
  have h2 : (1 : ℚ) ≤ ((round (q * 100) : ℤ) : ℚ) := by exact_mod_cast h1
  linarith

theorem paidTo_cons (c : String) (t : Transaction) (ts : List Transaction) :
    paidTo c (t :: ts) = (if t.tto = c then t.amount else 0) + paidTo c ts := by
  by_cases h : t.tto = c <;> simp [paidTo, List.filter_cons, h]

theorem countTo_cons (c : String) (t : Transaction) (ts : List Transaction) :
    countTo c (t :: ts) = (if t.tto = c then 1 else 0) + countTo c ts := by
  by_cases h : t.tto = c
  · simp only [countTo, List.filter_cons, h]
    simp
    omega
  · simp [countTo, List.filter_cons, h]

theorem paidTo_append (c : String) (ts1 ts2 : List Transaction) :
    paidTo c (ts1 ++ ts2) = paidTo c ts1 + paidTo c ts2 := by
  simp [paidTo, List.filter_append]

theorem countTo_append (c : String) (ts1 ts2 : List Transaction) :
    countTo c (ts1 ++ ts2) = countTo c ts1 + countTo c ts2 := by
  simp [countTo, List.filter_append]

theorem paidTo_zero_of (c : String) (L : List String) :
    ∀ (ts : List Transaction), (∀ t ∈ ts, t.tto ∈ L) → c ∉ L →
    paidTo c ts = 0 ∧ countTo c ts = 0 := by
  intro ts
  induction ts with
  | nil => exact fun _ _ => ⟨rfl, rfl⟩
  | cons t ts ih =>
    intro hL hc
    have hne : t.tto ≠ c := fun h => hc (h ▸ hL t (List.mem_cons_self _ _))
    have hrec := ih (fun t' ht' => hL t' (List.mem_cons_of_mem _ ht')) hc
    rw [paidTo_cons, countTo_cons, if_neg hne, if_neg hne, hrec.1, hrec.2]
    simp

theorem paidBy_cons (d : String) (t : Transaction) (ts : List Transaction) :
    paidBy d (t :: ts) = (if t.tfrom = d then t.amount else 0) + paidBy d ts := by
  by_cases h : t.tfrom = d <;> simp [paidBy, List.filter_cons, h]

theorem countBy_cons (d : String) (t : Transaction) (ts : List Transaction) :
    countBy d (t :: ts) = (if t.tfrom = d then 1 else 0) + countBy d ts := by
  by_cases h : t.tfrom = d
  · simp only [countBy, List.filter_cons, h]
    simp
    omega
  · simp [countBy, List.filter_cons, h]

theorem paidBy_append (d : String) (ts1 ts2 : List Transaction) :
    paidBy d (ts1 ++ ts2) = paidBy d ts1 + paidBy d ts2 := by
  simp [paidBy, List.filter_append]

theorem countBy_append (d : String) (ts1 ts2 : List Transaction) :
    countBy d (ts1 ++ ts2) = countBy d ts1 + countBy d ts2 := by
  simp [countBy, List.filter_append]

theorem paidBy_total (d : String) : ∀ (ts : List Transaction),
    (∀ t ∈ ts, t.tfrom = d) →
    paidBy d ts = (ts.map Transaction.amount).sum ∧ countBy d ts = ts.length := by
  intro ts
  induction ts with
  | nil => exact fun _ => ⟨rfl, rfl⟩
  | cons t ts ih =>
    intro h
    have hrec := ih (fun t' ht' => h t' (List.mem_cons_of_mem _ ht'))
    rw [paidBy_cons, countBy_cons, if_pos (h t (List.mem_cons_self _ _)),
      if_pos (h t (List.mem_cons_self _ _)), hrec.1, hrec.2]
    refine ⟨by simp, ?_⟩
    simp only [List.length_cons]
    omega

theorem paidBy_zero (d : String) : ∀ (ts : List Transaction),
    (∀ t ∈ ts, t.tfrom ≠ d) → paidBy d ts = 0 ∧ countBy d ts = 0 := by
  intro ts
  induction ts with
  | nil => exact fun _ => ⟨rfl, rfl⟩
  | cons t ts ih =>
    intro h
    have hrec := ih (fun t' ht' => h t' (List.mem_cons_of_mem _ ht'))
    rw [paidBy_cons, countBy_cons, if_neg (h t (List.mem_cons_self _ _)),
      if_neg (h t (List.mem_cons_self _ _)), hrec.1, hrec.2]
    simp

theorem mem_dictKeys_of_mem {α : Type} (m : List (String × α)) (p : String × α)
    (h : p ∈ m) : p.1 ∈ dictKeys m :=
  List.mem_map_of_mem Prod.fst h

theorem assoc_val_unique {α : Type} : ∀ (l : List (String × α)),
    (dictKeys l).Nodup → ∀ (k : String) (v1 v2 : α),
    (k, v1) ∈ l → (k, v2) ∈ l → v1 = v2 := by
  intro l
  induction l with
  | nil => intro _ k v1 v2 h1; cases h1
  | cons hd tl ih =>
    intro hnd k v1 v2 h1 h2
    have hnd' : (dictKeys tl).Nodup := (List.nodup_cons.1 (by simpa [dictKeys] using hnd)).2
    have hhd : hd.1 ∉ dictKeys tl := (List.nodup_cons.1 (by simpa [dictKeys] using hnd)).1
    rcases List.mem_cons.1 h1 with he1 | hm1 <;> rcases List.mem_cons.1 h2 with he2 | hm2
    · rw [← he1] at he2
      exact (congrArg Prod.snd he2).symm
    · exfalso
      apply hhd
      rw [← he1]
      exact mem_dictKeys_of_mem tl (k, v2) hm2
    · exfalso
      apply hhd
      rw [← he2]
      exact mem_dictKeys_of_mem tl (k, v1) hm1
    · exact ih hnd' k v1 v2 hm1 hm2

theorem settleOne_cons_reduce (d c : String) (a debt : ℚ) (tl : List (String × ℚ))
    (hbreak : ¬ debt ≤ 1/100) :
    settleOne d ((c, a) :: tl) debt ((c, a) :: tl) =
      if a - min debt a ≤ 1/100 then
        ((⟨d, c, round2 (min debt a)⟩ :: (settleOne d tl (debt - min debt a) tl).1),
          (settleOne d tl (debt - min debt a) tl).2)
      else
        ([⟨d, c, round2 (min debt a)⟩], 0, (c, a - min debt a) :: tl) := by
  simp only [settleOne]
  rw [if_neg hbreak]
  have hg : dictGetD ((c, a) :: tl) c 0 = a := by rw [dictGetD_cons, if_pos (by simp)]
  have hupd : dictUpdate ((c, a) :: tl) c (a - min debt a) = (c, a - min debt a) :: tl := by
    simp only [dictUpdate]
    rw [if_pos (by simp)]
  have hg2 : dictGetD ((c, a - min debt a) :: tl) c 0 = a - min debt a := by
    rw [dictGetD_cons, if_pos (by simp)]
  rw [hg, hupd, hg2]
  by_cases herase : a - min debt a ≤ 1/100
  · have her : dictErase ((c, a - min debt a) :: tl) c = tl := by
      simp only [dictErase]
      rw [if_pos (by simp)]
    rw [if_pos herase, if_pos herase, her]
  · have hp : min debt a = debt := by
      rcases min_cases debt a with ⟨h1, _⟩ | ⟨h1, _⟩
      · exact h1
      · exfalso
        apply herase
        rw [h1]
        linarith
    rw [if_neg herase, if_neg herase,
      settleOne_break d tl (debt - min debt a) _ (by rw [hp]; simp)]
    rw [hp, sub_self]

theorem settleOne_main (d : String) : ∀ (snap : List (String × ℚ)) (debt : ℚ),
    (0 ≤ debt → 0 ≤ (settleOne d snap debt snap).2.1) ∧
    |((settleOne d snap debt snap).1.map Transaction.amount).sum -
        (debt - (settleOne d snap debt snap).2.1)| ≤
      ((settleOne d snap debt snap).1.length : ℚ)/200 ∧
    (1/100 < (settleOne d snap debt snap).2.1 → (settleOne d snap debt snap).2.2 = []) ∧
    (∀ t ∈ (settleOne d snap debt snap).1, t.tfrom = d) := by
  intro snap
  induction snap with
  | nil =>
    intro debt
    exact ⟨fun h => h, by simp [settleOne], fun _ => rfl,
      fun t ht => absurd ht (by simp [settleOne])⟩
  | cons hd tl ih =>
    intro debt
    obtain ⟨c, a⟩ := hd
    by_cases hbreak : debt ≤ 1/100
    · rw [settleOne_break d _ _ _ hbreak]
      exact ⟨fun h => h, by simp, fun h => absurd hbreak (not_le.2 h),
        fun t ht => absurd ht (by simp)⟩
    · rw [settleOne_cons_reduce d c a debt tl hbreak]
      have hmin_le : min debt a ≤ debt := min_le_left _ _
      by_cases herase : a - min debt a ≤ 1/100
      · rw [if_pos herase]
        obtain ⟨ih1, ih3, ih4, ih5⟩ := ih (debt - min debt a)
        refine ⟨?_, ?_, ih4, ?_⟩
        · intro h0
          apply ih1
          linarith
        · have habs := round2_abs (min debt a)
          simp only [List.map_cons, List.sum_cons, List.length_cons]
          have key : round2 (min debt a) +
                ((settleOne d tl (debt - min debt a) tl).1.map Transaction.amount).sum -
                (debt - (settleOne d tl (debt - min debt a) tl).2.1) =
              (round2 (min debt a) - min debt a) +
                (((settleOne d tl (debt - min debt a) tl).1.map Transaction.amount).sum -
                  ((debt - min debt a) - (settleOne d tl (debt - min debt a) tl).2.1)) := by
            ring
          rw [key]
          refine le_trans (abs_add _ _) ?_
          push_cast
          linarith
        · intro t ht
          rcases List.mem_cons.1 ht with rfl | hmem
          · rfl
          · exact ih5 t hmem
      · rw [if_neg herase]
        have hp : min debt a = debt := by
          rcases min_cases debt a with ⟨h1, _⟩ | ⟨h1, _⟩
          · exact h1
          · exfalso
            apply herase
            rw [h1]
            linarith
        refine ⟨fun _ => le_refl 0, ?_,
          fun h => absurd h (by norm_num), ?_⟩
        · have habs := round2_abs debt
          simp only [List.map_cons, List.map_nil, List.sum_cons, List.sum_nil,
            List.length_cons, List.length_nil, hp]
          push_cast
          rw [add_zero, sub_zero]
          linarith
        · intro t ht
          rcases List.mem_cons.1 ht with rfl | hmem
          · rfl
          · exact absurd hmem (by simp)

theorem settleOne_creditors (d : String) : ∀ (snap : List (String × ℚ)) (debt : ℚ),
    (∀ q ∈ snap, 1/100 < q.2) → (dictKeys snap).Nodup →
    ((∀ t ∈ (settleOne d snap debt snap).1,
        t.tto ∈ dictKeys snap ∧ 1/100 ≤ t.amount) ∧
      (dictKeys (settleOne d snap debt snap).2.2).Sublist (dictKeys snap) ∧
      (∀ q ∈ (settleOne d snap debt snap).2.2, 1/100 < q.2) ∧
      (∀ p ∈ snap,
        (∃ a', (p.1, a') ∈ (settleOne d snap debt snap).2.2 ∧
          |paidTo p.1 (settleOne d snap debt snap).1 - (p.2 - a')| ≤
            (countTo p.1 (settleOne d snap debt snap).1 : ℚ)/200) ∨
        (p.1 ∉ dictKeys (settleOne d snap debt snap).2.2 ∧
          |paidTo p.1 (settleOne d snap debt snap).1 - p.2| ≤
            1/100 + (countTo p.1 (settleOne d snap debt snap).1 : ℚ)/200))) := by
  intro snap
  induction snap with
  | nil =>
    intro debt _ _
    exact ⟨fun t ht => absurd ht (by simp [settleOne]), by simp [settleOne],
      fun q hq => absurd hq (by simp [settleOne]),
      fun p hp => absurd hp (by simp)⟩
  | cons hd tl ih =>
    intro debt hval hnd
    obtain ⟨c, a⟩ := hd
    have hvala : 1/100 < a := hval (c, a) (List.mem_cons_self _ _)
    have hvaltl : ∀ q ∈ tl, 1/100 < q.2 :=
      fun q hq => hval q (List.mem_cons_of_mem _ hq)
    have hndtl : (dictKeys tl).Nodup :=
      (List.nodup_cons.1 (by simpa [dictKeys] using hnd)).2
    have hcnotin : c ∉ dictKeys tl :=
      (List.nodup_cons.1 (by simpa [dictKeys] using hnd)).1
    by_cases hbreak : debt ≤ 1/100
    · rw [settleOne_break d _ _ _ hbreak]
      refine ⟨fun t ht => absurd ht (by simp), List.Sublist.refl _, hval, ?_⟩
      intro p hp
      exact Or.inl ⟨p.2, hp, by simp [paidTo, countTo]⟩
    · rw [settleOne_cons_reduce d c a debt tl hbreak]
      have hdgt : 1/100 < debt := not_le.1 hbreak
      have hminpos : 1/100 < min debt a := lt_min hdgt hvala
      by_cases herase : a - min debt a ≤ 1/100
      · rw [if_pos herase]
        obtain ⟨ih1, ih2, ih3, ih4⟩ := ih (debt - min debt a) hvaltl hndtl
        have htfrom := (settleOne_main d tl (debt - min debt a)).2.2.2
        refine ⟨?_, ih2.cons _, ih3, ?_⟩
        · intro t ht
          rcases List.mem_cons.1 ht with rfl | hmem
          · exact ⟨by simp [dictKeys], round2_ge _ hminpos⟩
          · obtain ⟨h1, h2⟩ := ih1 t hmem
            exact ⟨by simp [dictKeys]; right; simpa [dictKeys] using h1, h2⟩
        · intro p hp
          rcases List.mem_cons.1 hp with rfl | hmem
          · -- head creditor (c, a) was erased
            right
            have hnotin2 : c ∉ dictKeys (settleOne d tl (debt - min debt a) tl).2.2 :=
              fun hin => hcnotin (ih2.subset hin)
            have hz := paidTo_zero_of c (dictKeys tl)
              (settleOne d tl (debt - min debt a) tl).1
              (fun t ht => (ih1 t ht).1) hcnotin
            constructor
            · exact hnotin2
            · rw [paidTo_cons, if_pos rfl, countTo_cons, if_pos rfl, hz.1, hz.2]
              have habs := round2_abs (min debt a)
              have hple : min debt a ≤ a := min_le_right _ _
              have key : round2 (min debt a) + 0 - a =
                  (round2 (min debt a) - min debt a) + (min debt a - a) := by ring
              rw [key]
              refine le_trans (abs_add _ _) ?_
              have h2 : |min debt a - a| = a - min debt a := by
                rw [abs_of_nonpos (by linarith)]
                ring
              push_cast
              rw [h2]
              linarith
          · -- tail creditor
            have hne : p.1 ≠ c := by
              intro h
              exact hcnotin (h ▸ mem_dictKeys_of_mem tl p hmem)
            have hlift1 : paidTo p.1 ((⟨d, c, round2 (min debt a)⟩ : Transaction) ::
                (settleOne d tl (debt - min debt a) tl).1) =
                paidTo p.1 (settleOne d tl (debt - min debt a) tl).1 := by
              rw [paidTo_cons, if_neg (fun h => hne h.symm)]
              ring
            have hlift2 : countTo p.1 ((⟨d, c, round2 (min debt a)⟩ : Transaction) ::
                (settleOne d tl (debt - min debt a) tl).1) =
                countTo p.1 (settleOne d tl (debt - min debt a) tl).1 := by
              rw [countTo_cons, if_neg (fun h => hne h.symm)]
              omega
            rcases ih4 p hmem with ⟨a', ha1, ha2⟩ | ⟨h1, h2⟩
            · exact Or.inl ⟨a', ha1, by rw [hlift1, hlift2]; exact ha2⟩
            · exact Or.inr ⟨h1, by rw [hlift1, hlift2]; exact h2⟩
      · rw [if_neg herase]
        have hanew : 1/100 < a - min debt a := not_le.1 herase
        refine ⟨?_, List.Sublist.refl _, ?_, ?_⟩
        · intro t ht
          rcases List.mem_cons.1 ht with rfl | hmem
          · exact ⟨by simp [dictKeys], round2_ge _ hminpos⟩
          · exact absurd hmem (by simp)
        · intro q hq
          rcases List.mem_cons.1 hq with rfl | hmem
          · exact hanew
          · exact hvaltl q hmem
        · intro p hp
          rcases List.mem_cons.1 hp with rfl | hmem
          · left
            refine ⟨a - min debt a, List.mem_cons_self _ _, ?_⟩
            rw [paidTo_cons, if_pos rfl, countTo_cons, if_pos rfl]
            have habs := round2_abs (min debt a)
            simp only [paidTo, countTo, List.filter_nil, List.map_nil, List.sum_nil,
              List.length_nil]
            push_cast
            have key2 : round2 (min debt a) + 0 - (a - (a - min debt a)) =
                round2 (min debt a) - min debt a := by ring
            rw [key2]
            linarith
          · left
            have hne : p.1 ≠ c := by
              intro h
              exact hcnotin (h ▸ mem_dictKeys_of_mem tl p hmem)
            refine ⟨p.2, List.mem_cons_of_mem _ hmem, ?_⟩
            rw [paidTo_cons, if_neg (fun h => hne h.symm),
              countTo_cons, if_neg (fun h => hne h.symm)]
            simp [paidTo, countTo]

theorem settleAll_tfrom : ∀ (ds creds : List (String × ℚ)) (t : Transaction),
    t ∈ (settleAll ds creds).1 → t.tfrom ∈ dictKeys ds := by
  intro ds
  induction ds with
  | nil =>
    intro creds t ht
    exact absurd ht (by simp [settleAll])
  | cons hd tl ih =>
    intro creds t ht
    obtain ⟨d, amt⟩ := hd
    simp only [settleAll] at ht
    rcases List.mem_append.1 ht with h1 | h2
    · have := (settleOne_main d creds amt).2.2.2 t h1
      rw [this]
      simp [dictKeys]
    · have := ih (settleOne d creds amt creds).2.2 t h2
      simp only [dictKeys, List.map_cons]
      exact List.mem_cons_of_mem _ this

theorem settleAll_tto : ∀ (ds creds : List (String × ℚ)),
    (∀ q ∈ creds, 1/100 < q.2) → (dictKeys creds).Nodup →
    ∀ t ∈ (settleAll ds creds).1, t.tto ∈ dictKeys creds ∧ 1/100 ≤ t.amount := by
  intro ds
  induction ds with
  | nil =>
    intro creds _ _ t ht
    exact absurd ht (by simp [settleAll])
  | cons hd tl ih =>
    intro creds hval hndc t ht
    obtain ⟨d, amt⟩ := hd
    have hcred := settleOne_creditors d creds amt hval hndc
    simp only [settleAll] at ht
    rcases List.mem_append.1 ht with h1 | h2
    · exact hcred.1 t h1
    · have hval' : ∀ q ∈ (settleOne d creds amt creds).2.2, 1/100 < q.2 := hcred.2.2.1
      have hnd' : (dictKeys (settleOne d creds amt creds).2.2).Nodup :=
        hndc.sublist hcred.2.1
      obtain ⟨ha, hb⟩ := ih (settleOne d creds amt creds).2.2 hval' hnd' t h2
      exact ⟨hcred.2.1.subset ha, hb⟩

theorem settleAll_debtor_cons : ∀ (ds creds : List (String × ℚ)),
    (dictKeys ds).Nodup → (∀ p ∈ ds, 0 < p.2) →
    (∀ q ∈ creds, 1/100 < q.2) → (dictKeys creds).Nodup →
    ∀ p ∈ ds, (settleAll ds creds).2 ≠ [] →
      |paidBy p.1 (settleAll ds creds).1 - p.2| ≤
        1/100 + (countBy p.1 (settleAll ds creds).1 : ℚ)/200 := by
  intro ds
  induction ds with
  | nil =>
    intro creds _ _ _ _ p hp
    cases hp
  | cons hd tl ih =>
    intro creds hndd hpos hval hndc p hp hfin
    obtain ⟨d, amt⟩ := hd
    have hmain := settleOne_main d creds amt
    have hcred := settleOne_creditors d creds amt hval hndc
    have hfin' : (settleAll tl (settleOne d creds amt creds).2.2).2 ≠ [] := by
      simpa [settleAll] using hfin
    have hmid : (settleOne d creds amt creds).2.2 ≠ [] := by
      intro h
      apply hfin'
      rw [h, settleAll_nil_creditors]
    have hts : (settleAll ((d, amt) :: tl) creds).1 =
        (settleOne d creds amt creds).1 ++
          (settleAll tl (settleOne d creds amt creds).2.2).1 := by
      simp [settleAll]
    have hdnot : d ∉ dictKeys tl :=
      (List.nodup_cons.1 (by simpa [dictKeys] using hndd)).1
    have hndtl : (dictKeys tl).Nodup :=
      (List.nodup_cons.1 (by simpa [dictKeys] using hndd)).2
    rcases List.mem_cons.1 hp with he | hm
    · have hdle : (settleOne d creds amt creds).2.1 ≤ 1/100 := by
        by_contra hgt
        exact hmid (hmain.2.2.1 (not_le.1 hgt))
      have hd0 : 0 ≤ (settleOne d creds amt creds).2.1 := by
        apply hmain.1
        have := hpos p hp
        rw [he] at this
        exact le_of_lt (by simpa using this)
      have htot := paidBy_total d (settleOne d creds amt creds).1 hmain.2.2.2
      have hzero := paidBy_zero d (settleAll tl (settleOne d creds amt creds).2.2).1
        (fun t ht heq => hdnot (heq ▸ settleAll_tfrom tl _ t ht))
      rw [he]
      simp only
      rw [hts, paidBy_append, countBy_append, htot.1, htot.2, hzero.1, hzero.2]
      have habs := hmain.2.1
      have h1 : |((settleOne d creds amt creds).1.map Transaction.amount).sum - amt| ≤
          |((settleOne d creds amt creds).1.map Transaction.amount).sum -
            (amt - (settleOne d creds amt creds).2.1)| +
            (settleOne d creds amt creds).2.1 := by
        have hkey : ((settleOne d creds amt creds).1.map Transaction.amount).sum - amt =
            (((settleOne d creds amt creds).1.map Transaction.amount).sum -
              (amt - (settleOne d creds amt creds).2.1)) +
              (-(settleOne d creds amt creds).2.1) := by
          ring
        rw [hkey]
        refine le_trans (abs_add _ _) ?_
        rw [abs_neg, abs_of_nonneg hd0]
      push_cast
      rw [add_zero, add_zero]
      linarith
    · have hpd : p.1 ≠ d := by
        intro h
        exact hdnot (h ▸ mem_dictKeys_of_mem tl p hm)
      have hzero := paidBy_zero p.1 (settleOne d creds amt creds).1
        (fun t ht heq => hpd (heq ▸ hmain.2.2.2 t ht))
      rw [hts, paidBy_append, countBy_append, hzero.1, hzero.2]
      have hval' : ∀ q ∈ (settleOne d creds amt creds).2.2, 1/100 < q.2 := hcred.2.2.1
      have hnd' : (dictKeys (settleOne d creds amt creds).2.2).Nodup :=
        hndc.sublist hcred.2.1
      have hih := ih (settleOne d creds amt creds).2.2 hndtl
        (fun q hq => hpos q (List.mem_cons_of_mem _ hq)) hval' hnd' p hm hfin'
      push_cast
      rw [zero_add, zero_add]
      push_cast at hih
      linarith

theorem settleAll_creditor_cons : ∀ (ds creds : List (String × ℚ)),
    (∀ q ∈ creds, 1/100 < q.2) → (dictKeys creds).Nodup →
    ∀ p ∈ creds, p.1 ∉ dictKeys (settleAll ds creds).2 →
      |paidTo p.1 (settleAll ds creds).1 - p.2| ≤
        1/100 + (countTo p.1 (settleAll ds creds).1 : ℚ)/200 := by
  intro ds
  induction ds with
  | nil =>
    intro creds _ _ p hp hnot
    exact absurd (mem_dictKeys_of_mem creds p hp) (by simpa [settleAll] using hnot)
  | cons hd tl ih =>
    intro creds hval hndc p hp hnot
    obtain ⟨d, amt⟩ := hd
    have hcred := settleOne_creditors d creds amt hval hndc
    have hts : (settleAll ((d, amt) :: tl) creds).1 =
        (settleOne d creds amt creds).1 ++
          (settleAll tl (settleOne d creds amt creds).2.2).1 := by
      simp [settleAll]
    have hfe : (settleAll ((d, amt) :: tl) creds).2 =
        (settleAll tl (settleOne d creds amt creds).2.2).2 := by
      simp [settleAll]
    have hval' : ∀ q ∈ (settleOne d creds amt creds).2.2, 1/100 < q.2 := hcred.2.2.1
    have hnd' : (dictKeys (settleOne d creds amt creds).2.2).Nodup :=
      hndc.sublist hcred.2.1
    rw [hts, paidTo_append, countTo_append]
    rcases hcred.2.2.2 p hp with ⟨a', ha1, ha2⟩ | ⟨h1, h2⟩
    · have hnot' : p.1 ∉ dictKeys (settleAll tl (settleOne d creds amt creds).2.2).2 := by
        rw [← hfe]
        exact hnot
      have hih := ih (settleOne d creds amt creds).2.2 hval' hnd' (p.1, a') ha1 hnot'
      simp only at hih
      have hkey : paidTo p.1 (settleOne d creds amt creds).1 +
            paidTo p.1 (settleAll tl (settleOne d creds amt creds).2.2).1 - p.2 =
          (paidTo p.1 (settleOne d creds amt creds).1 - (p.2 - a')) +
            (paidTo p.1 (settleAll tl (settleOne d creds amt creds).2.2).1 - a') := by
        ring
      rw [hkey]
      refine le_trans (abs_add _ _) ?_
      push_cast
      linarith
    · have hz := paidTo_zero_of p.1 (dictKeys (settleOne d creds amt creds).2.2)
        (settleAll tl (settleOne d creds amt creds).2.2).1
        (fun t ht => (settleAll_tto tl _ hval' hnd' t ht).1) h1
      rw [hz.1, hz.2]
      push_cast
      rw [add_zero, add_zero]
      exact h2

theorem dictKeys_netBalancesOf (b : List (String × List (String × ℚ))) :
    dictKeys (netBalancesOf b) = dictKeys b := by
  simp [dictKeys, netBalancesOf, List.map_map, Function.comp]

theorem creditors_keys_nodup (net : List (String × ℚ))
    (h : (dictKeys net).Nodup) : (dictKeys (creditorsOf net)).Nodup :=
  h.sublist ((List.filter_sublist _).map Prod.fst)

theorem debtors_keys_nodup (net : List (String × ℚ))
    (h : (dictKeys net).Nodup) : (dictKeys (debtorsOf net)).Nodup := by
  have he : dictKeys (debtorsOf net) =
      dictKeys (net.filter (fun p => p.2 < -(1/100))) := by
    simp [dictKeys, debtorsOf, List.map_map, Function.comp]
  rw [he]
  exact h.sublist ((List.filter_sublist _).map Prod.fst)

theorem creditor_mem (net : List (String × ℚ)) (p : String × ℚ)
    (hp : p ∈ creditorsOf net) : p ∈ net ∧ 1/100 < p.2 := by
  have := List.mem_filter.1 hp
  exact ⟨this.1, by simpa using this.2⟩

theorem debtor_mem (net : List (String × ℚ)) (p : String × ℚ)
    (hp : p ∈ debtorsOf net) : (p.1, -p.2) ∈ net ∧ 1/100 < p.2 := by
  obtain ⟨q, hq, hqe⟩ := List.mem_map.1 hp
  have hq2 : q.2 < -(1/100) := by simpa using (List.mem_filter.1 hq).2
  have hqmem : q ∈ net := (List.mem_filter.1 hq).1
  constructor
  · rw [← hqe]
    simpa using hqmem
  · rw [← hqe]
    simp only
    linarith

theorem debtor_key_not_creditor (net : List (String × ℚ))
    (hnd : (dictKeys net).Nodup) (p : String × ℚ) (hp : p ∈ debtorsOf net) :
    p.1 ∉ dictKeys (creditorsOf net) := by
  intro hin
  obtain ⟨q, hq, hqe⟩ := List.mem_map.1 hin
  have hcq := creditor_mem net q hq
  have hdp := debtor_mem net p hp
  have hqnet : (p.1, q.2) ∈ net := by
    have h0 : (q.1, q.2) ∈ net := hcq.1
    rw [hqe] at h0
    exact h0
  have hequ := assoc_val_unique net hnd p.1 (-p.2) q.2 hdp.1 hqnet
  have h1 := hdp.2
  have h2 := hcq.2
  rw [← hequ] at h2
  linarith

theorem buildPercentageSplits_nonneg (amount : ℚ) (ps : List (String × ℚ))
    (ha : 0 ≤ amount) (hps : ∀ p ∈ ps, 0 ≤ p.2) :
    buildPercentageSplits amount ps =
      (ps.map (fun p =>
        ⟨p.1, p.2 / 100 * amount, if 0 ≤ p.2 ∧ p.2 ≤ 100 then p.2 else 0⟩), false) := by
  induction ps with
  | nil => rfl
  | cons hd tl ih =>
    obtain ⟨uid, pct⟩ := hd
    have h0 : (0:ℚ) ≤ pct / 100 * amount := by
      have := hps (uid, pct) (by simp)
      have hp : (0:ℚ) ≤ pct / 100 := by positivity
      exact mul_nonneg hp ha
    have htl : ∀ p ∈ tl, 0 ≤ p.2 := fun p hp => hps p (by simp [hp])
    simp [buildPercentageSplits, not_lt.2 h0, ih htl]

/-! ## Claim theorems -/

/-- C1 (amended): for a group with duplicate-free members who are all
valid users, if every group-scoped expense with splits has
duplicate-free, nonnegative splits referencing only group members AND a
payer who is a group member, then the member net balances (group-scoped
`calculate_user_balance` value sums) add up to 0 within the 0.01
tolerance (they add up to 0 exactly). -/
theorem C1_group_zero_sum (s : ExpenseSplitter) (gid : String) (g : Group)
    (_hg : dictLookup s.groups gid = some g)
    (hnd : g.members.Nodup)
    (hmem : ∀ m ∈ g.members, dictContains s.users m = true)
    (hexp : ∀ p ∈ s.expenses, includeExpense (some gid) p.2 = true → p.2.splits ≠ [] →
      ((p.2.splits.map Split.user_id).Nodup ∧
        (∀ sp ∈ p.2.splits, sp.user_id ∈ g.members ∧ 0 ≤ sp.amount) ∧
        p.2.paid_by ∈ g.members)) :
    |(g.members.map
      (fun m => netOf (calculate_user_balance s m (some gid)))).sum| ≤ 1/100 := by
  have hz : (g.members.map
      (fun m => netOf (calculate_user_balance s m (some gid)))).sum = 0 := by
    have h1 : ∀ m ∈ g.members,
        netOf (calculate_user_balance s m (some gid)) =
          ((s.expenses.map Prod.snd).map (eNet m (some gid))).sum := fun m hm =>
      netOf_calculate s m (some gid) (hmem m hm)
    rw [List.map_congr_left h1,
      list_sum_comm g.members (s.expenses.map Prod.snd) (fun m e => eNet m (some gid) e)]
    apply List.sum_eq_zero
    intro x hx
    obtain ⟨e, he, rfl⟩ := List.mem_map.1 hx
    obtain ⟨pe, hpe, rfl⟩ := List.mem_map.1 he
    exact eNet_members_sum pe.2 (some gid) g.members hnd (hexp pe hpe)
  rw [hz]
  norm_num

/-- C1 counterexample: a group with the single member A and one scoped
expense whose splits reference only members (nodup, nonnegative), but
whose payer X is not a member; the member net balances sum to −10, far
outside the tolerance, so the claim as stated (without any payer
condition) is false. -/
theorem C1_counterexample :
    (dictLookup strayPayerState.groups "G" =
        some ⟨"G", "Trip", "", ["A"], "A"⟩ ∧
      (["A"] : List String).Nodup ∧
      (∀ m ∈ (["A"] : List String), dictContains strayPayerState.users m = true) ∧
      (∀ p ∈ strayPayerState.expenses, ∀ sp ∈ p.2.splits,
        sp.user_id ∈ (["A"] : List String) ∧ 0 ≤ sp.amount) ∧
      (∀ p ∈ strayPayerState.expenses, (p.2.splits.map Split.user_id).Nodup)) ∧
    ¬ (|((["A"] : List String).map
      (fun m => netOf (calculate_user_balance strayPayerState m (some "G")))).sum|
        ≤ 1/100) := by
  with_unfolding_all decide

/-- C1 witness: the three-member worked example satisfies every
hypothesis and its member net balances cancel. -/
theorem C1_witness :
    |((⟨"G", "Roommates", "Shared apartment expenses", ["A", "B", "C"], "A"⟩ :
        Group).members.map
      (fun m => netOf (calculate_user_balance roommatesState m (some "G")))).sum|
      ≤ 1/100 :=
  C1_group_zero_sum roommatesState "G" _ (by with_unfolding_all decide)
    (by with_unfolding_all decide) (by with_unfolding_all decide)
    (by with_unfolding_all decide)

/-- C3 (amended): for an existing expense with nonnegative amount and a
percentage map over existing users whose percentages are all
nonnegative, a total within `0.01` of `100` makes
`split_expense_percentage` return `True` and install the splits, and a
total deviating by more than `0.01` makes it raise the split-mismatch
`ValueError`. -/
theorem C3_percentage_closure (s : ExpenseSplitter) (expense_id : String)
    (e : Expense) (percentages : List (String × ℚ))
    (he : dictLookup s.expenses expense_id = some e)
    (hu : percentages.all (fun p => dictContains s.users p.1) = true) :
    (|(percentages.map Prod.snd).sum - 100| ≤ 1/100 →
      (∀ p ∈ percentages, 0 ≤ p.2) → 0 ≤ e.amount →
      split_expense_percentage s expense_id percentages =
        (.ok true, setExpense s expense_id
          { e with
            split_type := .percentage
            splits := percentages.map (fun p =>
              ⟨p.1, p.2 / 100 * e.amount,
               if 0 ≤ p.2 ∧ p.2 ≤ 100 then p.2 else 0⟩) })) ∧
    (1/100 < |(percentages.map Prod.snd).sum - 100| →
      (split_expense_percentage s expense_id percentages).1 = .error .valueError) := by
  constructor
  · intro hsum hpos hamt
    have hb := buildPercentageSplits_nonneg e.amount percentages hamt hpos
    simp only [split_expense_percentage, he]
    rw [if_neg (not_not_intro hu), if_neg (not_lt.2 hsum)]
    simp only [hb]
    simp
  · intro hsum
    simp only [split_expense_percentage, he]
    rw [if_neg (not_not_intro hu), if_pos hsum]

/-- C3 counterexample: the percentages `{A: 150, B: -50}` sum to exactly
`100`, reference existing users and name an existing expense, yet the
call raises `ValueError` (from the negative split amount) instead of
succeeding. -/
theorem C3_counterexample :
    (([("A", (150:ℚ)), ("B", -50)].map Prod.snd).sum = 100 ∧
      dictContains twoUserState.users "A" = true ∧
      dictContains twoUserState.users "B" = true) ∧
    (split_expense_percentage twoUserState "E" [("A", 150), ("B", -50)]).1 ≠ .ok true ∧
    (split_expense_percentage twoUserState "E" [("A", 150), ("B", -50)]).1 =
      .error .valueError := by
  with_unfolding_all decide

/-- C3 witness: a concrete success and a concrete failure. -/
theorem C3_witness :
    split_expense_percentage twoUserState "E" [("A", 60), ("B", 40)] =
      (.ok true, setExpense twoUserState "E"
        ⟨"E", "Dinner", 100, "A", none, .percentage,
         [⟨"A", 60, 60⟩, ⟨"B", 40, 40⟩], "General"⟩) ∧
    (split_expense_percentage twoUserState "E" [("A", 60), ("B", 60)]).1 =
      .error .valueError := by
  constructor
  · have h := (C3_percentage_closure twoUserState "E"
      ⟨"E", "Dinner", 100, "A", none, .equal, [], "General"⟩
      [("A", 60), ("B", 40)] (by with_unfolding_all decide)
      (by with_unfolding_all decide)).1
      (by with_unfolding_all decide) (by with_unfolding_all decide)
      (by with_unfolding_all decide)
    rw [h]
    with_unfolding_all decide
  · exact (C3_percentage_closure twoUserState "E"
      ⟨"E", "Dinner", 100, "A", none, .equal, [], "General"⟩
      [("A", 60), ("B", 60)] (by with_unfolding_all decide)
      (by with_unfolding_all decide)).2
      (by with_unfolding_all decide)

/-- C4: evaluating `split_expense_percentage` at the failing input
`{A: 150, B: -50}` (percentages summing to 100, so the guard passes)
shows the raise happens after the expense was already mutated: the
previous equal split is replaced by the partial list `[Split A 150]`
and the splitting-rule tag becomes `percentage`, contradicting
all-or-nothing replacement. -/
theorem C4_partial_mutation_bug :
    (split_expense_percentage twoUserSplitState "E" [("A", 150), ("B", -50)]).1 =
      .error .valueError ∧
    dictLookup (split_expense_percentage twoUserSplitState "E"
        [("A", 150), ("B", -50)]).2.expenses "E" =
      some ⟨"E", "Dinner", 100, "A", none, .percentage, [⟨"A", 150, 0⟩], "General"⟩ ∧
    dictLookup twoUserSplitState.expenses "E" =
      some ⟨"E", "Dinner", 100, "A", none, .equal,
        [⟨"A", 50, 0⟩, ⟨"B", 50, 0⟩], "General"⟩ := by
  with_unfolding_all decide

/-- C6: a balance map whose net balances all lie within the `0.01`
tolerance of `0` yields an empty transaction list, and so does any map
with no creditors or no debtors after filtering. -/
theorem C6_settled_empty (balances : List (String × List (String × ℚ))) :
    ((∀ p ∈ netBalancesOf balances, |p.2| ≤ 1/100) → simplify_debts balances = []) ∧
    (creditorsOf (netBalancesOf balances) = [] → simplify_debts balances = []) ∧
    (debtorsOf (netBalancesOf balances) = [] → simplify_debts balances = []) := by
  refine ⟨?_, simplify_of_creditors_nil balances, simplify_of_debtors_nil balances⟩
  intro h
  apply simplify_of_creditors_nil
  simp only [creditorsOf, List.filter_eq_nil_iff]
  intro p hp
  simp only [decide_eq_true_eq, not_lt]
  exact (abs_le.1 (h p hp)).2

/-- C6 witness: concrete instances of the three implications. -/
theorem C6_witness :
    simplify_debts [("A", [("B", (1:ℚ)/200)])] = [] ∧
    simplify_debts lopsidedBalances = [] ∧
    simplify_debts [("A", [("B", (100:ℚ))])] = [] := by
  refine ⟨(C6_settled_empty _).1 ?_, (C6_settled_empty lopsidedBalances).2.1 ?_,
    (C6_settled_empty _).2.2 ?_⟩
  · with_unfolding_all decide
  · with_unfolding_all decide
  · with_unfolding_all decide

/-- C7: the worked three-user scenario: A pays 120, B pays 90, C pays 60,
each split equally among A, B, C in one group; the group-scoped net
balances are +30, 0, -30 and the simplifier emits the single
transaction `{from: C, to: A, amount: 30}`. -/
theorem C7_worked_example :
    netOf (calculate_user_balance roommatesState "A" (some "G")) = 30 ∧
    netOf (calculate_user_balance roommatesState "B" (some "G")) = 0 ∧
    netOf (calculate_user_balance roommatesState "C" (some "G")) = -30 ∧
    simplify_debts (get_group_balances roommatesState "G") = [⟨"C", "A", 30⟩] := by
  with_unfolding_all decide

/-- C8: with an existing expense, an empty participant list passes the
(vacuous) user-validation check and reaches the unguarded division,
raising `ZeroDivisionError` rather than returning a failure result; a
non-empty list never raises that error. -/
theorem C8_empty_split_division (s : ExpenseSplitter) (expense_id : String) (e : Expense)
    (he : dictLookup s.expenses expense_id = some e) :
    (split_expense_equally s expense_id []).1 = .error .zeroDivisionError ∧
    ∀ user_ids : List String, user_ids ≠ [] →
      (split_expense_equally s expense_id user_ids).1 ≠ .error .zeroDivisionError := by
  constructor
  · simp [split_expense_equally, he]
  · intro user_ids hne
    simp only [split_expense_equally, he]
    split_ifs with h1 h2 h3 <;> simp_all [List.length_eq_zero]

/-- C5 (amended): whenever at least one debtor or creditor survives the
filter, the number of returned transactions is at most
(number of debtors + number of creditors − 1). -/
theorem C5_transaction_count (balances : List (String × List (String × ℚ)))
    (h : 1 ≤ (debtorsOf (netBalancesOf balances)).length +
      (creditorsOf (netBalancesOf balances)).length) :
    ((simplify_debts balances).length : ℤ) ≤
      ((debtorsOf (netBalancesOf balances)).length : ℤ) +
        ((creditorsOf (netBalancesOf balances)).length : ℤ) - 1 := by
  have hc := settleAll_count (debtorsOf (netBalancesOf balances))
    (creditorsOf (netBalancesOf balances))
  simp only [simplify_debts, settleRun] at *
  by_cases hfin : (settleAll (debtorsOf (netBalancesOf balances))
      (creditorsOf (netBalancesOf balances))).2 = []
  · by_cases hcred : creditorsOf (netBalancesOf balances) = []
    · rw [hcred, settleAll_nil_creditors]
      simp only [List.length_nil]
      rw [hcred] at h
      simp only [List.length_nil] at h
      push_cast
      omega
    · have := hc.2 hfin hcred
      omega
  · have h1 := hc.1
    have h2 : 1 ≤ (settleAll (debtorsOf (netBalancesOf balances))
        (creditorsOf (netBalancesOf balances))).2.length := by
      cases hx : (settleAll (debtorsOf (netBalancesOf balances))
          (creditorsOf (netBalancesOf balances))).2 with
      | nil => exact absurd hx hfin
      | cons a l => simp [hx]
    omega

/-- C5 counterexample: on the empty balance map there are no debtors and
no creditors, so the claimed bound is −1 while the returned list has
length 0. -/
theorem C5_counterexample :
    ¬ (((simplify_debts ([] : List (String × List (String × ℚ)))).length : ℤ) ≤
      ((debtorsOf (netBalancesOf ([] : List (String × List (String × ℚ))))).length : ℤ) +
        ((creditorsOf (netBalancesOf
          ([] : List (String × List (String × ℚ))))).length : ℤ) - 1) := by
  with_unfolding_all decide

/-- C5 witness: one debtor and one creditor allow at most one
transaction. -/
theorem C5_witness :
    ((simplify_debts surplusBalances).length : ℤ) ≤
      ((debtorsOf (netBalancesOf surplusBalances)).length : ℤ) +
        ((creditorsOf (netBalancesOf surplusBalances)).length : ℤ) - 1 :=
  C5_transaction_count surplusBalances (by with_unfolding_all decide)

/-- C9: in a state whose expenses have duplicate-free split user ids
(and nonnegative split amounts, the `Split` invariant), the balance
maps are antisymmetric: for distinct existing users `u` and `v` and any
group scope, the entry of `v` in `u`'s map (0 when absent) is the
negation of the entry of `u` in `v`'s map. -/
theorem C9_balance_antisymmetry (s : ExpenseSplitter) (u v : String)
    (scope : Option String) (huv : u ≠ v)
    (hu : dictContains s.users u = true) (hv : dictContains s.users v = true)
    (hexp : ∀ p ∈ s.expenses, (p.2.splits.map Split.user_id).Nodup ∧
      ∀ sp ∈ p.2.splits, 0 ≤ sp.amount) :
    dictGetD (calculate_user_balance s u scope) v 0 =
      -(dictGetD (calculate_user_balance s v scope) u 0) := by
  rw [dictGetD_calculate s u v scope hu, dictGetD_calculate s v u scope hv,
    ← list_sum_map_neg]
  congr 1
  apply List.map_congr_left
  intro e he
  obtain ⟨pe, hpe, rfl⟩ := List.mem_map.1 he
  exact eDelta_antisym pe.2 scope u v huv (hexp pe hpe).1 (hexp pe hpe).2

/-- C9 witness: antisymmetry between A and B in the worked example,
both for the group scope and for the unscoped balance. -/
theorem C9_witness :
    dictGetD (calculate_user_balance roommatesState "A" (some "G")) "B" 0 =
      -(dictGetD (calculate_user_balance roommatesState "B" (some "G")) "A" 0) ∧
    dictGetD (calculate_user_balance roommatesState "C" none) "A" 0 =
      -(dictGetD (calculate_user_balance roommatesState "A" none) "C" 0) :=
  ⟨C9_balance_antisymmetry roommatesState "A" "B" (some "G")
      (by with_unfolding_all decide) (by with_unfolding_all decide)
      (by with_unfolding_all decide) (by with_unfolding_all decide),
    C9_balance_antisymmetry roommatesState "C" "A" none
      (by with_unfolding_all decide) (by with_unfolding_all decide)
      (by with_unfolding_all decide) (by with_unfolding_all decide)⟩

/-- C2 (amended): for a balance map with distinct keys, (a) whenever the
creditor dict is not exhausted at the end of the run, each debtor's
outgoing recorded amounts sum to its net debt within 0.01 plus 0.005
per recorded transaction (rounding tolerance); (b) each creditor that
was removed from the creditor dict during the run received its net
credit within the same tolerance. -/
theorem C2_settlement_conservation (balances : List (String × List (String × ℚ)))
    (hnd : (dictKeys balances).Nodup) :
    (∀ p ∈ netBalancesOf balances, p.2 < -(1/100) → (settleRun balances).2 ≠ [] →
      |paidBy p.1 (simplify_debts balances) - (-(p.2))| ≤
        1/100 + (countBy p.1 (simplify_debts balances) : ℚ)/200) ∧
    (∀ p ∈ netBalancesOf balances, 1/100 < p.2 →
      p.1 ∉ dictKeys (settleRun balances).2 →
      |paidTo p.1 (simplify_debts balances) - p.2| ≤
        1/100 + (countTo p.1 (simplify_debts balances) : ℚ)/200) := by
  have hndn : (dictKeys (netBalancesOf balances)).Nodup := by
    rw [dictKeys_netBalancesOf]
    exact hnd
  have hval : ∀ q ∈ creditorsOf (netBalancesOf balances), 1/100 < q.2 :=
    fun q hq => (creditor_mem _ q hq).2
  have hndc := creditors_keys_nodup _ hndn
  have hndd := debtors_keys_nodup _ hndn
  have hposd : ∀ p ∈ debtorsOf (netBalancesOf balances), 0 < p.2 := by
    intro p hp
    have := (debtor_mem _ p hp).2
    linarith
  constructor
  · intro p hp hneg hfin
    have hmem : (p.1, -p.2) ∈ debtorsOf (netBalancesOf balances) := by
      apply List.mem_map.2
      refine ⟨p, List.mem_filter.2 ⟨hp, by simpa using hneg⟩, rfl⟩
    have h := settleAll_debtor_cons (debtorsOf (netBalancesOf balances))
      (creditorsOf (netBalancesOf balances)) hndd hposd hval hndc
      (p.1, -p.2) hmem hfin
    simpa [simplify_debts, settleRun] using h
  · intro p hp hposp hnot
    have hmem : p ∈ creditorsOf (netBalancesOf balances) :=
      List.mem_filter.2 ⟨hp, by simpa using hposp⟩
    have h := settleAll_creditor_cons (debtorsOf (netBalancesOf balances))
      (creditorsOf (netBalancesOf balances)) hval hndc p hmem hnot
    simpa [simplify_debts, settleRun] using h

/-- C2 counterexample: a balance map with a debtor owing 100 and no
creditor at all; the run emits no transactions, so the debtor's
outgoing total misses its net debt by 100, far beyond any rounding
tolerance. -/
theorem C2_counterexample :
    (netBalancesOf lopsidedBalances = [("A", -100)] ∧
      simplify_debts lopsidedBalances = []) ∧
    ¬ (|paidBy "A" (simplify_debts lopsidedBalances) - 100| ≤ 1/100) := by
  with_unfolding_all decide

/-- C2 witness: a debtor fully served while a creditor survives, and a
creditor fully drained while debt remains. -/
theorem C2_witness :
    |paidBy "B" (simplify_debts surplusBalances) - (-(-60 : ℚ))| ≤
      1/100 + (countBy "B" (simplify_debts surplusBalances) : ℚ)/200 ∧
    |paidTo "A" (simplify_debts shortfallBalances) - 50| ≤
      1/100 + (countTo "A" (simplify_debts shortfallBalances) : ℚ)/200 := by
  constructor
  · exact (C2_settlement_conservation surplusBalances (by with_unfolding_all decide)).1
      ("B", -60) (by with_unfolding_all decide) (by with_unfolding_all decide)
      (by with_unfolding_all decide)
  · exact (C2_settlement_conservation shortfallBalances (by with_unfolding_all decide)).2
      ("A", 50) (by with_unfolding_all decide) (by with_unfolding_all decide)
      (by with_unfolding_all decide)

/-- C10: for a balance map with distinct keys, every returned
transaction carries an amount of at least 0.01 after rounding and has
distinct from/to users (a debtor key is never a creditor key). -/
theorem C10_transaction_positive (balances : List (String × List (String × ℚ)))
    (hnd : (dictKeys balances).Nodup) :
    ∀ t ∈ simplify_debts balances, 1/100 ≤ t.amount ∧ t.tfrom ≠ t.tto := by
  intro t ht
  have hndn : (dictKeys (netBalancesOf balances)).Nodup := by
    rw [dictKeys_netBalancesOf]
    exact hnd
  have hval : ∀ q ∈ creditorsOf (netBalancesOf balances), 1/100 < q.2 :=
    fun q hq => (creditor_mem _ q hq).2
  have hndc := creditors_keys_nodup _ hndn
  simp only [simplify_debts, settleRun] at ht
  have htto := settleAll_tto (debtorsOf (netBalancesOf balances))
    (creditorsOf (netBalancesOf balances)) hval hndc t ht
  have htfrom := settleAll_tfrom (debtorsOf (netBalancesOf balances))
    (creditorsOf (netBalancesOf balances)) t ht
  refine ⟨htto.2, ?_⟩
  intro heq
  obtain ⟨p, hp, hpe⟩ := List.mem_map.1 htfrom
  apply debtor_key_not_creditor (netBalancesOf balances) hndn p hp
  rw [hpe, heq]
  exact htto.1

/-- C10 witness: the single transaction of the worked example. -/
theorem C10_witness :
    1/100 ≤ (Transaction.mk "C" "A" 30).amount ∧
      (Transaction.mk "C" "A" 30).tfrom ≠ (Transaction.mk "C" "A" 30).tto :=
  C10_transaction_positive (get_group_balances roommatesState "G")
    (by with_unfolding_all decide) ⟨"C", "A", 30⟩ (by with_unfolding_all decide)

/-- C8 witness: the dichotomy at a concrete state. -/
theorem C8_witness :
    (split_expense_equally twoUserState "E" []).1 = .error .zeroDivisionError ∧
    (split_expense_equally twoUserState "E" ["A"]).1 ≠ .error .zeroDivisionError := by
  have h := C8_empty_split_division twoUserState "E"
    ⟨"E", "Dinner", 100, "A", none, .equal, [], "General"⟩ (by with_unfolding_all decide)
  exact ⟨h.1, h.2 ["A"] (by simp)⟩

end ExpenseTracker
